import Mathlib

/-!
Verification of the scene-timing and video-assembly subsystem of
`apps/api/routes/video.py` (functions `_parse_scene_timings`,
`_compile_video_with_scene_timings`, and the alignment loop inside
`compile_video`).

Conventions of the shallow embedding:
* Python strings are modelled as `List Char` (with ASCII whitespace for
  `str.strip` / `str.split`), Python floats as `ℚ`, Python ints as `Int`
  (scene numbers) or `Nat` (counters).
* Python code that can raise (`TypeError` from arithmetic on `None`) is
  modelled with `Except Unit`.
* Subprocess invocations and filesystem checks made by the compositor are
  abstracted into an environment record of boolean outcomes
  (`FfmpegEnv`); the compositor model records which subprocesses were
  started, whether the scratch directory was removed, and the returned
  success flag.
-/

/-- ASCII whitespace, as recognised by Python's `str.strip` / `str.split`. -/
def pyIsSpace (c : Char) : Bool :=
  c == ' ' || c == '\t' || c == '\n' || c == '\r' || c == '\x0b' || c == '\x0c'

/-- Python `str.strip()`: drop leading and trailing whitespace. -/
def pyStrip (l : List Char) : List Char :=
  ((l.dropWhile pyIsSpace).reverse.dropWhile pyIsSpace).reverse

/-- Python `str.split('\n')` (keeps empty pieces, `"".split('\n') == [""]`). -/
def pyLines : List Char → List (List Char)
  | [] => [[]]
  | c :: cs =>
    if c == '\n' then [] :: pyLines cs
    else
      match pyLines cs with
      | [] => [[c]]
      | l :: ls => (c :: l) :: ls

/-- Python `str.split(':')` (keeps empty pieces). -/
def splitColon : List Char → List (List Char)
  | [] => [[]]
  | c :: cs =>
    if c == ':' then [] :: splitColon cs
    else
      match splitColon cs with
      | [] => [[c]]
      | l :: ls => (c :: l) :: ls

/-- Decimal digit run to a natural number. -/
def digitsToNat (l : List Char) : Nat :=
  l.foldl (fun n c => 10 * n + (c.toNat - '0'.toNat)) 0

/-- Python `int(s)` restricted to the character class `[\d:]` of the
timestamp groups: succeeds exactly on a nonempty all-digit string
(`int("")` and `int(":")` raise `ValueError`). -/
def pyInt (l : List Char) : Option Nat :=
  if l ≠ [] ∧ l.all (fun c => c.isDigit) then some (digitsToNat l) else none

/-- Helper for `pyWordCount`: the flag records whether the previous
character was a non-space (we are inside a word). -/
def wordCountAux : List Char → Bool → Nat
  | [], _ => 0
  | c :: cs, inWord =>
    if pyIsSpace c then wordCountAux cs false
    else (if inWord then 0 else 1) + wordCountAux cs true

/-- Python `len(s.split())`: number of maximal non-whitespace runs. -/
def pyWordCount (l : List Char) : Nat := wordCountAux l false

/-- Case-insensitive literal match (models `re.IGNORECASE` on the literal
part `Scene` of the marker regex); returns the rest of the input. -/
def matchCaseInsensitive : List Char → List Char → Option (List Char)
  | [], rest => some rest
  | _ :: _, [] => none
  | p :: ps, c :: cs => if c.toLower == p then matchCaseInsensitive ps cs else none

/-- Character class `[\d:]` of the timestamp groups. -/
def isDigitOrColon (c : Char) : Bool := c.isDigit || c == ':'

/-- The optional timestamp group `(?:\s*\(([\d:]+)\s*-\s*([\d:]+)\))?` of
the scene-marker regex (video.py line 70).  Returns the two captured
groups, or `(none, none)` when the optional group does not match.  Greedy
matching of `[\d:]+` needs no backtracking here because neither `-`, `)`
nor whitespace belongs to the class `[\d:]`. -/
def matchTimeGroup (l : List Char) : Option (List Char) × Option (List Char) :=
  match l.dropWhile pyIsSpace with
  | '(' :: r1 =>
    match r1.span isDigitOrColon with
    | ([], _) => (none, none)
    | (g1, r2) =>
      match r2.dropWhile pyIsSpace with
      | '-' :: r4 =>
        match (r4.dropWhile pyIsSpace).span isDigitOrColon with
        | ([], _) => (none, none)
        | (g2, r6) =>
          match r6 with
          | ')' :: _ => (some g1, some g2)
          | _ => (none, none)
      | _ => (none, none)
  | _ => (none, none)

/-- Models `re.match(r'^Scene\s+(\d+)(?:\s*\(([\d:]+)\s*-\s*([\d:]+)\))?', line,
re.IGNORECASE)` (video.py line 70): scene number plus the two optional
timestamp groups.  `re.match` only anchors at the start, so trailing text
after the matched part is ignored. -/
def matchSceneLine (l : List Char) : Option (Int × (Option (List Char) × Option (List Char))) :=
  match matchCaseInsensitive ['s', 'c', 'e', 'n', 'e'] l with
  | none => none
  | some rest =>
    match rest.span pyIsSpace with
    | ([], _) => none
    | (_, rest1) =>
      match rest1.span (fun c => c.isDigit) with
      | ([], _) => none
      | (ds, rest2) => some ((digitsToNat ds : Int), matchTimeGroup rest2)

/-- One entry of the `scene_content` dict of `_parse_scene_timings`
(video.py lines 75-113): scene number, accumulated narration content, and
the optional explicit timestamps (seconds). -/
structure SceneContent where
  number : Int
  content : List Char
  startTime : Option ℚ
  endTime : Option ℚ
deriving DecidableEq, Repr

/-- One timestamp field of the `try`-block of video.py lines 87-96: the
value stays `None` when the split does not have exactly two parts, and
the whole `try` aborts (`Except.error`) when `int()` raises. -/
def tsField (l : List Char) : Except Unit (Option ℚ) :=
  match splitColon l with
  | [a, b] =>
    match pyInt a, pyInt b with
    | some x, some y => .ok (some ((x : ℚ) * 60 + (y : ℚ)))
    | _, _ => .error ()
  | _ => .ok none

/-- The full timestamp `try`/`except` (video.py lines 87-96): an
exception while parsing the start leaves both fields `None`; an exception
while parsing the end keeps an already-assigned start. -/
def parseTimestamps (s e : List Char) : Option ℚ × Option ℚ :=
  match tsField s with
  | .error _ => (none, none)
  | .ok st =>
    match tsField e with
    | .error _ => (st, none)
    | .ok en => (st, en)

/-- The line loop of `_parse_scene_timings` (video.py lines 62-113):
produces the flush order of completed scenes (each flush is an assignment
`scene_content[number] = ...`).  Blank lines are skipped entirely;
non-marker lines are appended (with a leading space) to the current
scene's content; a marker line flushes the current scene and starts a new
one; the last scene is flushed at end of input. -/
def rawScenes : List (List Char) → Option SceneContent → List SceneContent
  | [], cur =>
    match cur with
    | some s => [s]
    | none => []
  | ln :: rest, cur =>
    match pyStrip ln with
    | [] => rawScenes rest cur
    | st =>
      match matchSceneLine st with
      | some (num, groups) =>
        match
          (match groups with
           | (some a, some b) => parseTimestamps a b
           | _ => (none, none)) with
        | (ts, te) =>
          match cur with
          | some s => s :: rawScenes rest (some ⟨num, [], ts, te⟩)
          | none => rawScenes rest (some ⟨num, [], ts, te⟩)
      | none =>
        match cur with
        | some s => rawScenes rest (some ⟨s.number, s.content ++ (' ' :: st), s.startTime, s.endTime⟩)
        | none => rawScenes rest none

/-- The last dict assignment wins for a repeated scene number (Python
dict overwrite semantics). -/
def lastForKey (raw : List SceneContent) (n : Int) : Option SceneContent :=
  (raw.filter (fun s => s.number == n)).getLast?

/-- Models `sorted(scene_content.items())` (video.py line 118): distinct keys in
ascending order, each mapped to the last value assigned to it. -/
def sceneDict (raw : List SceneContent) : List SceneContent :=
  (List.insertionSort (· ≤ ·) (raw.map (·.number)).dedup).filterMap (lastForKey raw)

/-- The parse phase of `_parse_scene_timings`: script text to the sorted
scene list that the timing policies consume. -/
def sceneContent (script : String) : List SceneContent :=
  sceneDict (rawScenes (pyLines script.data) none)

/-- One element of the list returned by `_parse_scene_timings`
(video.py lines 132-172). -/
structure TimingInterval where
  sceneNumber : Int
  startTime : ℚ
  endTime : ℚ
  duration : ℚ
deriving DecidableEq, Repr

/-- End resolution of the explicit-timestamp branch (video.py lines
126-130): the scene's own end if present, else the next scene's (by
scene number) start, else the audio duration.  The result is `none`
exactly when the next scene exists but has no explicit start. -/
def explicitEnd (scenes : List SceneContent) (D : ℚ) (sc : SceneContent) : Option ℚ :=
  match sc.endTime with
  | some v => some v
  | none =>
    match scenes.find? (fun t => sc.number < t.number) with
    | some ns => ns.startTime
    | none => some D

/-- One appended dict of the explicit branch (video.py lines 132-137).
`duration: end - start` raises `TypeError` when either operand is the
Python `None`, modelled by `Except.error`. -/
def explicitInterval (scenes : List SceneContent) (D : ℚ) (sc : SceneContent) :
    Except Unit TimingInterval :=
  match sc.startTime with
  | none => .error ()
  | some s =>
    match explicitEnd scenes D sc with
    | none => .error ()
    | some e => .ok ⟨sc.number, s, e, e - s⟩

/-- The explicit-timestamp branch of `_parse_scene_timings` (video.py
lines 123-137): the loop raises at the first scene whose arithmetic hits
a `None`. -/
def explicitTimings (scenes : List SceneContent) (D : ℚ) :
    Except Unit (List TimingInterval) :=
  scenes.mapM (explicitInterval scenes D)

/-- Models `total_words` of video.py line 140. -/
def totalWords (scenes : List SceneContent) : Nat :=
  (scenes.map (fun s => pyWordCount s.content)).sum

/-- The proportional (word-count) branch of `_parse_scene_timings`
(video.py lines 144-158): `cum` carries the running `cumulative_time`. -/
def proportionalAux (D : ℚ) (total : Nat) (cum : ℚ) :
    List SceneContent → List TimingInterval
  | [] => []
  | sc :: rest =>
    ⟨sc.number, cum, cum + (pyWordCount sc.content : ℚ) / (total : ℚ) * D,
        (pyWordCount sc.content : ℚ) / (total : ℚ) * D⟩ ::
      proportionalAux D total (cum + (pyWordCount sc.content : ℚ) / (total : ℚ) * D) rest

/-- The uniform (even-distribution) branch of `_parse_scene_timings`
(video.py lines 160-172): `i` is the enumeration index, `n` the total
scene count, `per` the per-scene duration `D / n`. -/
def uniformAux (D per : ℚ) (n : Nat) : Nat → List SceneContent → List TimingInterval
  | _, [] => []
  | i, sc :: rest =>
    ⟨sc.number, (i : ℚ) * per,
        (if i < n - 1 then ((i : ℚ) + 1) * per else D),
        (if i < n - 1 then ((i : ℚ) + 1) * per else D) - (i : ℚ) * per⟩ ::
      uniformAux D per n (i + 1) rest

/-- Entry point of the uniform branch. -/
def uniformTimings (scenes : List SceneContent) (D : ℚ) : List TimingInterval :=
  uniformAux D (D / (scenes.length : ℚ)) scenes.length 0 scenes

/-- Models `_parse_scene_timings(script_text, audio_duration)` (video.py lines
48-175): empty parse returns `[]`; explicit timestamps win over the
word-count policy, which wins over the uniform fallback. -/
def parseSceneTimings (script : String) (D : ℚ) : Except Unit (List TimingInterval) :=
  let sc := sceneContent script
  if sc.isEmpty then .ok []
  else if sc.any (fun s => s.startTime.isSome) then explicitTimings sc D
  else if 0 < totalWords sc then .ok (proportionalAux D (totalWords sc) 0 sc)
  else .ok (uniformTimings sc D)

/-- Modelled from the spec's words (refinement target for the
explicit-timestamp policy): "every scene's interval uses its own explicit
start; if a scene's `explicit_end` is absent, its end is taken as the
next scene's explicit start (by scene_number order), or `audio_duration`
if it is the last scene".  `getD` defaults are irrelevant under the
policy's precondition that the consulted explicit starts are present. -/
def specExplicitIntervals (scenes : List SceneContent) (D : ℚ) : List TimingInterval :=
  scenes.map fun sc =>
    ⟨sc.number, sc.startTime.getD 0,
      (match sc.endTime with
       | some v => v
       | none =>
         match scenes.find? (fun t => sc.number < t.number) with
         | some ns => ns.startTime.getD D
         | none => D),
      (match sc.endTime with
       | some v => v
       | none =>
         match scenes.find? (fun t => sc.number < t.number) with
         | some ns => ns.startTime.getD D
         | none => D) - sc.startTime.getD 0⟩

/-- One entry of `images_with_scenes` / `matched_images` in
`compile_video` (video.py lines 622-699, 729-773): `imageId` stands for
the identity of `image_path`. -/
structure ImageSegment where
  sceneNumber : Int
  imageId : Nat
  startTime : ℚ
  duration : ℚ
deriving DecidableEq, Repr

/-- One iteration of the `images_by_scene` loop of video.py lines 721-727:
a truthy (nonzero) scene number whose key is not yet present is inserted,
anything else is skipped. -/
def imagesBySceneStep (m : List (Int × ImageSegment)) (img : ImageSegment) :
    List (Int × ImageSegment) :=
  if img.sceneNumber ≠ 0 ∧ (m.lookup img.sceneNumber).isNone
  then m ++ [(img.sceneNumber, img)] else m

/-- Models `images_by_scene` of video.py lines 718-727: sort by scene number,
then first image per truthy (nonzero) scene number wins.  Represented as
an association list in insertion order (Python dict preserves it). -/
def imagesByScene (imgs : List ImageSegment) : List (Int × ImageSegment) :=
  (List.insertionSort (fun a b => a.sceneNumber ≤ b.sceneNumber) imgs).foldl
    imagesBySceneStep []

/-- One iteration of the matching loop of video.py lines 730-773:
exact scene-number match, else borrow the lowest-numbered image whose
scene number is not recorded in `matched_images` (which records the
expected scene numbers, not the borrowed assets), else repeat the last
matched image; with no match, no available image and no previous match,
nothing is appended. -/
def matchTimingStep (ibs : List (Int × ImageSegment)) (acc : List ImageSegment)
    (t : TimingInterval) : List ImageSegment :=
  match ibs.lookup t.sceneNumber with
  | some img => acc ++ [⟨t.sceneNumber, img.imageId, t.startTime, t.duration⟩]
  | none =>
    match List.insertionSort (· ≤ ·)
      ((ibs.map Prod.fst).filter (fun s => ¬ s ∈ acc.map ImageSegment.sceneNumber)) with
    | k :: _ =>
      match ibs.lookup k with
      | some img => acc ++ [⟨t.sceneNumber, img.imageId, t.startTime, t.duration⟩]
      | none => acc
    | [] =>
      match acc.getLast? with
      | some last => acc ++ [⟨t.sceneNumber, last.imageId, t.startTime, t.duration⟩]
      | none => acc

/-- Models `matched_images` after the matching loop of video.py lines 730-773. -/
def matchedImages (timings : List TimingInterval) (imgs : List ImageSegment) :
    List ImageSegment :=
  timings.foldl (matchTimingStep (imagesByScene imgs)) []

/-- Video.py lines 776-781: the matched list replaces `images_with_scenes`
only when it is nonempty; an empty match logs an error but keeps the
original images, and compilation proceeds. -/
def alignedImages (timings : List TimingInterval) (imgs : List ImageSegment) :
    List ImageSegment :=
  let m := matchedImages timings imgs
  if m.isEmpty then imgs else m

/-- Models `fade_duration = 0.5` (video.py line 195). -/
def fadeDuration : ℚ := 1 / 2

/-- Models `fade_out = max(0, duration - fade_duration)` (video.py line 258):
the `st` parameter of the `fade=t=out` filter of the segment command. -/
def fadeOutStart (d : ℚ) : ℚ := max 0 (d - fadeDuration)

/-- Outcomes of the filesystem checks and subprocess invocations of
`_compile_video_with_scene_timings`, indexed by segment position where
applicable.  `qtFaststartOk` / `ffFaststartOk` influence only which
faststart branch logs and moves files (video.py lines 366-406), never the
returned status, so the model does not read them. -/
structure FfmpegEnv where
  sourceExists : Nat → Bool
  copyCreated : Nat → Bool
  tempExists : Nat → Bool
  segmentRunOk : Nat → Bool
  segmentMade : Nat → Bool
  concatOk : Bool
  muxOk : Bool
  outputExists : Bool
  qtFaststartOk : Bool
  ffFaststartOk : Bool
  probeOk : Bool

/-- Observable outcome of one `_compile_video_with_scene_timings` run:
returned flag, whether `shutil.rmtree(temp_dir)` ran, how many
per-segment render subprocesses were started, and whether the concat and
mux subprocesses were started. -/
structure CompRun where
  success : Bool
  cleaned : Bool
  segmentsRun : Nat
  concatRun : Bool
  muxRun : Bool
deriving DecidableEq, Repr

/-- The prepare loop of video.py lines 201-246: index of the first
missing source image or failed copy, if any (each aborts with
`return False` before any render subprocess, without cleanup). -/
def prepareFailure (env : FfmpegEnv) (n : Nat) : Option Nat :=
  (List.range n).find? (fun i => ¬ (env.sourceExists i ∧ env.copyCreated i))

/-- The render loop of video.py lines 250-296: per segment, check the
temp image still exists, run the render subprocess, check the segment
file was created; each failure is `return False` with no cleanup.  `c`
counts render subprocesses started so far. -/
def renderSegments (env : FfmpegEnv) : List Nat → Nat → Except CompRun Nat
  | [], c => .ok c
  | i :: rest, c =>
    if env.tempExists i = false then .error ⟨false, false, c, false, false⟩
    else if env.segmentRunOk i = false then .error ⟨false, false, c + 1, false, false⟩
    else if env.segmentMade i = false then .error ⟨false, false, c + 1, false, false⟩
    else renderSegments env rest (c + 1)

/-- Control-flow model of `_compile_video_with_scene_timings` (video.py
lines 178-448).  An empty image list raises `ValueError`, caught by the
bare `except` which returns `False` without cleanup.  Concat failure
returns `False` without cleanup; mux failure and a missing output file
clean up before returning `False`; on the remaining path the faststart
post-processing never fails the run, the scratch directory is removed,
and the final `ffprobe` validation only logs on failure — the function
returns `True` regardless of `env.probeOk`. -/
def compileVideoWithSceneTimings (images : List ImageSegment) (env : FfmpegEnv) : CompRun :=
  if (List.insertionSort (fun a b => a.sceneNumber ≤ b.sceneNumber) images).isEmpty then
    ⟨false, false, 0, false, false⟩
  else
    match prepareFailure env
        (List.insertionSort (fun a b => a.sceneNumber ≤ b.sceneNumber) images).length with
    | some _ => ⟨false, false, 0, false, false⟩
    | none =>
      match renderSegments env
          (List.range (List.insertionSort (fun a b => a.sceneNumber ≤ b.sceneNumber)
            images).length) 0 with
      | .error r => r
      | .ok c =>
        if env.concatOk = false then ⟨false, false, c, true, false⟩
        else if env.muxOk = false then ⟨false, true, c, true, true⟩
        else if env.outputExists = false then ⟨false, true, c, true, true⟩
        else ⟨true, true, c, true, true⟩

/-- Environment in which every check and subprocess succeeds. -/
def envAllOk : FfmpegEnv :=
  ⟨fun _ => true, fun _ => true, fun _ => true, fun _ => true, fun _ => true,
    true, true, true, true, true, true⟩

/-- All-success environment except that the final `ffprobe` validation
of the produced container fails. -/
def envProbeFail : FfmpegEnv :=
  ⟨fun _ => true, fun _ => true, fun _ => true, fun _ => true, fun _ => true,
    true, true, true, true, true, false⟩

/-- All-success environment except that every per-segment render
subprocess exits nonzero. -/
def envSegFail : FfmpegEnv :=
  ⟨fun _ => true, fun _ => true, fun _ => true, fun _ => false, fun _ => true,
    true, true, true, true, true, true⟩

instance {ε α : Type} [DecidableEq ε] [DecidableEq α] : DecidableEq (Except ε α) := fun
  | .ok a, .ok b =>
    if h : a = b then .isTrue (by rw [h]) else .isFalse (fun hh => h (Except.ok.inj hh))
  | .ok _, .error _ => .isFalse (fun h => Except.noConfusion h)
  | .error _, .ok _ => .isFalse (fun h => Except.noConfusion h)
  | .error e, .error f =>
    if h : e = f then .isTrue (by rw [h]) else .isFalse (fun hh => h (Except.error.inj hh))

lemma lookup_of_mem_keys :
    ∀ (l : List (Int × ImageSegment)) (k : Int),
      k ∈ l.map Prod.fst → ∃ v, l.lookup k = some v := by
  intro l
  induction l with
  | nil => intro k h; simp at h
  | cons p t ih =>
    intro k h
    obtain ⟨k', v'⟩ := p
    by_cases hk : k = k'
    · exact ⟨v', by simp [List.lookup, beq_iff_eq.mpr hk]⟩
    · obtain ⟨v, hv⟩ := ih k (by simpa [hk] using h)
      exact ⟨v, by simp [List.lookup, beq_eq_false_iff_ne.mpr hk, hv]⟩

lemma matchTimingStep_length (ibs : List (Int × ImageSegment)) (hibs : ibs ≠ [])
    (acc : List ImageSegment) (t : TimingInterval) :
    (matchTimingStep ibs acc t).length = acc.length + 1 := by
  unfold matchTimingStep
  cases hl : ibs.lookup t.sceneNumber with
  | some img => simp
  | none =>
    cases hsort : List.insertionSort (· ≤ ·)
        ((ibs.map Prod.fst).filter (fun s => ¬ s ∈ acc.map ImageSegment.sceneNumber)) with
    | cons k rest =>
      have hperm := List.perm_insertionSort (· ≤ ·)
        ((ibs.map Prod.fst).filter (fun s => ¬ s ∈ acc.map ImageSegment.sceneNumber))
      rw [hsort] at hperm
      have hk : k ∈ (ibs.map Prod.fst).filter
          (fun s => ¬ s ∈ acc.map ImageSegment.sceneNumber) :=
        hperm.mem_iff.mp (by simp)
      obtain ⟨v, hv⟩ := lookup_of_mem_keys ibs k (List.mem_filter.mp hk).1
      simp [hv]
    | nil =>
      have hacc : acc ≠ [] := by
        intro h0
        subst h0
        have hperm := List.perm_insertionSort (· ≤ ·)
          ((ibs.map Prod.fst).filter
            (fun s => ¬ s ∈ ([] : List ImageSegment).map ImageSegment.sceneNumber))
        rw [hsort] at hperm
        have hfil : (ibs.map Prod.fst).filter
            (fun s => ¬ s ∈ ([] : List ImageSegment).map ImageSegment.sceneNumber) = [] :=
          hperm.symm.eq_nil
        have : ibs.map Prod.fst = [] := by
          rwa [List.filter_eq_self.mpr (by intro a _; simp)] at hfil
        exact hibs (by simpa using this)
      cases hlast : acc.getLast? with
      | none => exact absurd (List.getLast?_eq_none_iff.mp hlast) hacc
      | some last => simp

lemma foldl_matchTimingStep_length (ibs : List (Int × ImageSegment)) (hibs : ibs ≠ []) :
    ∀ (ts : List TimingInterval) (acc : List ImageSegment),
      (ts.foldl (matchTimingStep ibs) acc).length = acc.length + ts.length := by
  intro ts
  induction ts with
  | nil => intro acc; simp
  | cons t ts ih =>
    intro acc
    simp only [List.foldl_cons, List.length_cons]
    rw [ih, matchTimingStep_length ibs hibs]
    omega

lemma lookup_isNone_false_ne_nil {m : List (Int × ImageSegment)} {k : Int}
    (h : (m.lookup k).isNone = false) : m ≠ [] := by
  intro h0
  subst h0
  simp [List.lookup] at h

lemma foldl_imagesBySceneStep_ne_nil :
    ∀ (l : List ImageSegment) (m : List (Int × ImageSegment)), m ≠ [] →
      l.foldl imagesBySceneStep m ≠ [] := by
  intro l
  induction l with
  | nil => intro m hm; simpa using hm
  | cons img t ih =>
    intro m hm
    simp only [List.foldl_cons]
    apply ih
    unfold imagesBySceneStep
    split
    · simp
    · exact hm

lemma foldl_imagesBySceneStep_ne_nil_of_mem :
    ∀ (l : List ImageSegment) (m : List (Int × ImageSegment)) (img : ImageSegment),
      img ∈ l → img.sceneNumber ≠ 0 → l.foldl imagesBySceneStep m ≠ [] := by
  intro l
  induction l with
  | nil => intro m img h; simp at h
  | cons hd t ih =>
    intro m img hmem hnum
    rcases List.mem_cons.mp hmem with heq | htail
    · subst heq
      simp only [List.foldl_cons]
      by_cases hcond : (m.lookup img.sceneNumber).isNone = true
      · apply foldl_imagesBySceneStep_ne_nil
        unfold imagesBySceneStep
        rw [if_pos ⟨hnum, hcond⟩]
        simp
      · apply foldl_imagesBySceneStep_ne_nil
        have hm : m ≠ [] := lookup_isNone_false_ne_nil (by simpa using hcond)
        unfold imagesBySceneStep
        split
        · simp
        · exact hm
    · simp only [List.foldl_cons]
      exact ih _ img htail hnum

lemma imagesByScene_ne_nil (imgs : List ImageSegment)
    (h : ∃ img ∈ imgs, img.sceneNumber ≠ 0) : imagesByScene imgs ≠ [] := by
  obtain ⟨img, hmem, hnum⟩ := h
  have hmem' : img ∈ List.insertionSort (fun a b => a.sceneNumber ≤ b.sceneNumber) imgs :=
    (List.perm_insertionSort _ _).mem_iff.mpr hmem
  exact foldl_imagesBySceneStep_ne_nil_of_mem _ [] img hmem' hnum

lemma renderSegments_ok_count (env : FfmpegEnv) :
    ∀ (l : List Nat) (c c2 : Nat), renderSegments env l c = .ok c2 → c ≤ c2 := by
  intro l
  induction l with
  | nil =>
    intro c c2 h
    simp only [renderSegments] at h
    cases h
    exact Nat.le_refl c
  | cons i rest ih =>
    intro c c2 h
    simp only [renderSegments] at h
    split at h
    · exact absurd h (by simp)
    · split at h
      · exact absurd h (by simp)
      · split at h
        · exact absurd h (by simp)
        · exact Nat.le_of_succ_le (ih (c + 1) c2 h)

lemma renderSegments_error_count (env : FfmpegEnv) :
    ∀ (l : List Nat) (c : Nat) (r : CompRun),
      renderSegments env l c = .error r → c ≤ r.segmentsRun := by
  intro l
  induction l with
  | nil =>
    intro c r h
    simp [renderSegments] at h
  | cons i rest ih =>
    intro c r h
    simp only [renderSegments] at h
    split at h
    · cases h; simp
    · split at h
      · cases h; simp
      · split at h
        · cases h; simp
        · exact Nat.le_of_succ_le (ih (c + 1) r h)

lemma renderSegments_error_flags (env : FfmpegEnv) :
    ∀ (l : List Nat) (c : Nat) (r : CompRun),
      renderSegments env l c = .error r → r.cleaned = false ∧ r.success = false := by
  intro l
  induction l with
  | nil =>
    intro c r h
    simp [renderSegments] at h
  | cons i rest ih =>
    intro c r h
    simp only [renderSegments] at h
    split at h
    · cases h; exact ⟨rfl, rfl⟩
    · split at h
      · cases h; exact ⟨rfl, rfl⟩
      · split at h
        · cases h; exact ⟨rfl, rfl⟩
        · exact ih (c + 1) r h

lemma renderSegments_head_one (env : FfmpegEnv) (l : List Nat)
    (htemp : env.tempExists 0 = true) :
    (∀ c2, renderSegments env (0 :: l) 0 = .ok c2 → 1 ≤ c2) ∧
    (∀ r, renderSegments env (0 :: l) 0 = .error r → 1 ≤ r.segmentsRun) := by
  constructor
  · intro c2 h
    simp only [renderSegments, htemp] at h
    rw [if_neg (by simp : ¬ (true = false))] at h
    split at h
    · exact absurd h (by simp)
    · split at h
      · exact absurd h (by simp)
      · exact renderSegments_ok_count env l 1 c2 h
  · intro r h
    simp only [renderSegments, htemp] at h
    rw [if_neg (by simp : ¬ (true = false))] at h
    split at h
    · cases h; simp
    · split at h
      · cases h; simp
      · exact renderSegments_error_count env l 1 r h

/-- C4: for every sequence of timing intervals and every image set with at
least one image tagged with a positive scene number, the matching loop of
`compile_video` appends exactly one matched segment per timing interval:
the output length equals the number of timing intervals and no interval
is dropped. -/
theorem align_totality (timings : List TimingInterval) (imgs : List ImageSegment)
    (h : ∃ img ∈ imgs, 0 < img.sceneNumber) :
    (matchedImages timings imgs).length = timings.length := by
  have hne : imagesByScene imgs ≠ [] :=
    imagesByScene_ne_nil imgs (by obtain ⟨i, hm, hp⟩ := h; exact ⟨i, hm, by omega⟩)
  unfold matchedImages
  rw [foldl_matchTimingStep_length _ hne]
  simp

/-- Witness for C4 at a concrete input: two timing intervals, one image. -/
theorem align_totality_witness :
    (∃ img ∈ [(⟨1, 101, 0, 10⟩ : ImageSegment)], 0 < img.sceneNumber) ∧
    (matchedImages [⟨3, 0, 5, 5⟩, ⟨4, 5, 10, 5⟩] [⟨1, 101, 0, 10⟩]).length =
      ([⟨3, 0, 5, 5⟩, ⟨4, 5, 10, 5⟩] : List TimingInterval).length :=
  ⟨by decide, align_totality [⟨3, 0, 5, 5⟩, ⟨4, 5, 10, 5⟩] [⟨1, 101, 0, 10⟩] (by decide)⟩

/-- C3 counterexample: with timing intervals for scenes 3 and 4 but images
only for scenes 1 and 2, the fallback assigns image 101 to the interval
for scene 3 and then assigns image 101 *again* to the interval for scene
4, even though image 102 (scene 2) is still unconsumed — because the
availability filter compares against the already-matched intervals'
expected scene numbers (3), not against the consumed assets. -/
theorem fallback_reuse_counterexample :
    (matchedImages [⟨3, 0, 5, 5⟩, ⟨4, 5, 10, 5⟩]
        [⟨1, 101, 0, 5⟩, ⟨2, 102, 0, 5⟩]).map ImageSegment.imageId = [101, 101] ∧
    ((imagesByScene [⟨1, 101, 0, 5⟩, ⟨2, 102, 0, 5⟩]).lookup 2).map ImageSegment.imageId =
      some 102 := by
  constructor <;> decide

/-- C3 amended: when a timing interval has no exact image match and the
availability list is nonempty, the fallback selects the lowest-numbered
image key among those *not equal to the scene number of any
already-matched interval* (borrowed assets are recorded under the
borrowing interval's scene number, so they are not marked as consumed and
can be borrowed again). -/
theorem fallback_min_unmatched (ibs : List (Int × ImageSegment)) (acc : List ImageSegment)
    (t : TimingInterval) (k : Int) (rest : List Int)
    (hmiss : ibs.lookup t.sceneNumber = none)
    (havail : List.insertionSort (· ≤ ·)
        ((ibs.map Prod.fst).filter (fun s => ¬ s ∈ acc.map ImageSegment.sceneNumber)) =
      k :: rest) :
    k ∈ ibs.map Prod.fst ∧
    ¬ k ∈ acc.map ImageSegment.sceneNumber ∧
    (∀ k' ∈ (ibs.map Prod.fst).filter (fun s => ¬ s ∈ acc.map ImageSegment.sceneNumber),
      k ≤ k') ∧
    ∃ img, ibs.lookup k = some img ∧
      matchTimingStep ibs acc t =
        acc ++ [⟨t.sceneNumber, img.imageId, t.startTime, t.duration⟩] := by
  have hperm := List.perm_insertionSort (· ≤ ·)
    ((ibs.map Prod.fst).filter (fun s => ¬ s ∈ acc.map ImageSegment.sceneNumber))
  rw [havail] at hperm
  have hkfil : k ∈ (ibs.map Prod.fst).filter
      (fun s => ¬ s ∈ acc.map ImageSegment.sceneNumber) :=
    hperm.mem_iff.mp (by simp)
  have hkeys := (List.mem_filter.mp hkfil).1
  have hkused : ¬ k ∈ acc.map ImageSegment.sceneNumber := by
    have h2 := (List.mem_filter.mp hkfil).2
    simpa using h2
  have hsorted := List.sorted_insertionSort (· ≤ ·)
    ((ibs.map Prod.fst).filter (fun s => ¬ s ∈ acc.map ImageSegment.sceneNumber))
  rw [havail] at hsorted
  have hmin : ∀ k' ∈ (ibs.map Prod.fst).filter
      (fun s => ¬ s ∈ acc.map ImageSegment.sceneNumber), k ≤ k' := by
    intro k' hk'
    rcases List.mem_cons.mp (hperm.mem_iff.mpr hk') with h | h
    · exact le_of_eq h.symm
    · exact (List.sorted_cons.mp hsorted).1 k' h
  obtain ⟨img, himg⟩ := lookup_of_mem_keys ibs k hkeys
  refine ⟨hkeys, hkused, hmin, img, himg, ?_⟩
  unfold matchTimingStep
  simp only [hmiss, havail, himg]

/-- Witness for C3's amended theorem at a concrete input: interval for
scene 3, images for scenes 1 and 2, chosen key 1. -/
theorem fallback_min_unmatched_witness :
    ((imagesByScene [⟨1, 101, 0, 5⟩, ⟨2, 102, 0, 5⟩]).lookup
        (⟨3, 0, 5, 5⟩ : TimingInterval).sceneNumber = none) ∧
    (List.insertionSort (· ≤ ·)
        (((imagesByScene [⟨1, 101, 0, 5⟩, ⟨2, 102, 0, 5⟩]).map Prod.fst).filter
          (fun s => ¬ s ∈ ([] : List ImageSegment).map ImageSegment.sceneNumber)) =
      1 :: [2]) ∧
    ((1 : Int) ∈ (imagesByScene [⟨1, 101, 0, 5⟩, ⟨2, 102, 0, 5⟩]).map Prod.fst ∧
      ¬ (1 : Int) ∈ ([] : List ImageSegment).map ImageSegment.sceneNumber ∧
      (∀ k' ∈ ((imagesByScene [⟨1, 101, 0, 5⟩, ⟨2, 102, 0, 5⟩]).map Prod.fst).filter
          (fun s => ¬ s ∈ ([] : List ImageSegment).map ImageSegment.sceneNumber),
        (1 : Int) ≤ k') ∧
      ∃ img, (imagesByScene [⟨1, 101, 0, 5⟩, ⟨2, 102, 0, 5⟩]).lookup 1 = some img ∧
        matchTimingStep (imagesByScene [⟨1, 101, 0, 5⟩, ⟨2, 102, 0, 5⟩]) [] ⟨3, 0, 5, 5⟩ =
          [] ++ [⟨(⟨3, 0, 5, 5⟩ : TimingInterval).sceneNumber, img.imageId,
            (⟨3, 0, 5, 5⟩ : TimingInterval).startTime,
            (⟨3, 0, 5, 5⟩ : TimingInterval).duration⟩]) :=
  ⟨by decide, by decide,
    fallback_min_unmatched (imagesByScene [⟨1, 101, 0, 5⟩, ⟨2, 102, 0, 5⟩]) []
      ⟨3, 0, 5, 5⟩ 1 [2] (by decide) (by decide)⟩

/-- C5 counterexample: in a run in which every subprocess succeeds except
the final `ffprobe` inspection of the produced container, the compositor
still returns success (the probe failure is only logged as a warning,
video.py lines 430-434). -/
theorem probe_failure_success_counterexample :
    envProbeFail.probeOk = false ∧
    (compileVideoWithSceneTimings [⟨1, 101, 0, 10⟩] envProbeFail).success = true := by
  constructor
  · rfl
  · decide

lemma compileVideo_env_congr (images : List ImageSegment) (env₁ env₂ : FfmpegEnv)
    (h1 : env₁.sourceExists = env₂.sourceExists) (h2 : env₁.copyCreated = env₂.copyCreated)
    (h3 : env₁.tempExists = env₂.tempExists) (h4 : env₁.segmentRunOk = env₂.segmentRunOk)
    (h5 : env₁.segmentMade = env₂.segmentMade) (h6 : env₁.concatOk = env₂.concatOk)
    (h7 : env₁.muxOk = env₂.muxOk) (h8 : env₁.outputExists = env₂.outputExists) :
    compileVideoWithSceneTimings images env₁ = compileVideoWithSceneTimings images env₂ := by
  have hrs : ∀ (l : List Nat) (c : Nat), renderSegments env₁ l c = renderSegments env₂ l c := by
    intro l
    induction l with
    | nil => intro c; rfl
    | cons i rest ih => intro c; simp only [renderSegments, h3, h4, h5, ih]
  unfold compileVideoWithSceneTimings prepareFailure
  rw [h1, h2, h6, h7, h8]
  simp only [hrs]

/-- C5 amended: the outcome of `_compile_video_with_scene_timings` is
entirely independent of the final media-inspection result — the function
never fails because of it. -/
theorem success_independent_of_probe (images : List ImageSegment) (env : FfmpegEnv)
    (b : Bool) :
    compileVideoWithSceneTimings images
      ⟨env.sourceExists, env.copyCreated, env.tempExists, env.segmentRunOk, env.segmentMade,
        env.concatOk, env.muxOk, env.outputExists, env.qtFaststartOk, env.ffFaststartOk, b⟩ =
      compileVideoWithSceneTimings images env :=
  compileVideo_env_congr images _ env rfl rfl rfl rfl rfl rfl rfl rfl

/-- C8 counterexample: when the first per-segment render subprocess exits
nonzero, the compositor returns failure *without* removing the scratch
directory (the `return False` of video.py lines 281-284 has no
`shutil.rmtree`). -/
theorem cleanup_skipped_counterexample :
    (compileVideoWithSceneTimings [⟨1, 101, 0, 10⟩] envSegFail).success = false ∧
    (compileVideoWithSceneTimings [⟨1, 101, 0, 10⟩] envSegFail).cleaned = false := by
  constructor <;> decide

/-- C8 amended: the scratch directory is removed exactly on the paths
that get past the concat subprocess — success, mux failure and missing
final output; the no-image path, prepare failures, per-segment render
failures and concat failure all return without cleanup. -/
theorem cleanup_characterization (images : List ImageSegment) (env : FfmpegEnv) :
    (compileVideoWithSceneTimings images env).cleaned = true ↔
      (images ≠ [] ∧ prepareFailure env images.length = none ∧
        (∃ c, renderSegments env (List.range images.length) 0 = .ok c) ∧
        env.concatOk = true) := by
  have hlen : (List.insertionSort (fun a b => a.sceneNumber ≤ b.sceneNumber) images).length
      = images.length := (List.perm_insertionSort _ _).length_eq
  unfold compileVideoWithSceneTimings
  rw [hlen]
  by_cases hemp : (List.insertionSort (fun a b => a.sceneNumber ≤ b.sceneNumber)
      images).isEmpty = true
  · have himg : images = [] := by
      have h0 := List.isEmpty_iff.mp hemp
      have hp := List.perm_insertionSort (fun a b => a.sceneNumber ≤ b.sceneNumber) images
      rw [h0] at hp
      exact hp.symm.eq_nil
    simp [hemp, himg]
  · have himg : images ≠ [] := by
      intro h0
      subst h0
      exact hemp rfl
    rw [if_neg (by simpa using hemp)]
    cases hpf : prepareFailure env images.length with
    | some i => simp [himg, hpf]
    | none =>
      cases hrs : renderSegments env (List.range images.length) 0 with
      | error r =>
        have hfl := (renderSegments_error_flags env _ 0 r hrs).1
        simp [himg, hpf, hrs, hfl]
      | ok c =>
        by_cases hcat : env.concatOk = false
        · simp [himg, hpf, hrs, hcat]
        · have hcat' : env.concatOk = true := by
            cases hb : env.concatOk
            · exact absurd hb hcat
            · rfl
          constructor
          · intro _
            exact ⟨himg, rfl, ⟨c, rfl⟩, hcat'⟩
          · intro _
            show (if env.concatOk = false then
                (⟨false, false, c, true, false⟩ : CompRun)
              else if env.muxOk = false then ⟨false, true, c, true, true⟩
              else if env.outputExists = false then ⟨false, true, c, true, true⟩
              else ⟨true, true, c, true, true⟩).cleaned = true
            rw [if_neg (by rw [hcat']; simp)]
            split
            · rfl
            · split <;> rfl

/-- C9 counterexample: at segment duration 0.8 s — shorter than twice the
0.5 s fade length — the fade-out start is 0.3 s, not the 0 claimed by the
"clamped whenever shorter than twice the fade length" reading. -/
theorem fade_clamp_counterexample :
    (4 / 5 : ℚ) < 2 * fadeDuration ∧ fadeOutStart (4 / 5) ≠ 0 := by
  constructor
  · norm_num [fadeDuration]
  · norm_num [fadeOutStart, fadeDuration]

/-- C9 amended: the fade-out start is `max 0 (d - fadeDuration)`: the
fade-out ends exactly at the clip duration whenever the duration is at
least the fade length, and the start is clamped to 0 (rather than going
negative) exactly when the duration is shorter than the fade length. -/
theorem fade_out_start_formula (d : ℚ) :
    fadeOutStart d = max 0 (d - fadeDuration) ∧
    (fadeDuration ≤ d → fadeOutStart d + fadeDuration = d) ∧
    (d < fadeDuration → fadeOutStart d = 0) := by
  refine ⟨rfl, ?_, ?_⟩
  · intro hd
    unfold fadeOutStart
    rw [max_eq_right (by linarith)]
    ring
  · intro hd
    unfold fadeOutStart
    rw [max_eq_left (by linarith)]

/-- Witness for C9's amended theorem at duration 2 s. -/
theorem fade_out_start_formula_witness :
    fadeOutStart 2 = max 0 (2 - fadeDuration) ∧
    (fadeDuration ≤ 2 → fadeOutStart 2 + fadeDuration = 2) ∧
    ((2 : ℚ) < fadeDuration → fadeOutStart 2 = 0) :=
  fade_out_start_formula 2

/-- C2 counterexample: the script "hello world" contains no scene marker,
so parsing yields zero scenes, yet with one image available the
orchestrator still invokes the compositor, which starts a per-segment
render subprocess — it does not abort. -/
theorem zero_scene_subprocess_counterexample :
    parseSceneTimings "hello world" 10 = .ok [] ∧
    (compileVideoWithSceneTimings (alignedImages [] [⟨1, 101, 0, 10⟩])
        envAllOk).segmentsRun = 1 := by
  constructor <;> decide

/-- C2 amended: when scene parsing yields zero scenes, `compile_video`
does not abort: `_parse_scene_timings` returns an empty list, the
matching loop matches nothing so the original images are kept, and the
compositor is invoked and starts at least one per-segment render
subprocess (given the pre-render filesystem checks pass). -/
theorem zero_scenes_no_abort (script : String) (D : ℚ) (imgs : List ImageSegment)
    (env : FfmpegEnv)
    (hparse : sceneContent script = [])
    (hne : imgs ≠ [])
    (hprep : prepareFailure env imgs.length = none)
    (htemp : env.tempExists 0 = true) :
    parseSceneTimings script D = .ok [] ∧
    alignedImages [] imgs = imgs ∧
    1 ≤ (compileVideoWithSceneTimings imgs env).segmentsRun := by
  refine ⟨?_, ?_, ?_⟩
  · simp [parseSceneTimings, hparse]
  · simp [alignedImages, matchedImages]
  · have hlen : (List.insertionSort (fun a b => a.sceneNumber ≤ b.sceneNumber) imgs).length
        = imgs.length := (List.perm_insertionSort _ _).length_eq
    have hemp : (List.insertionSort (fun a b => a.sceneNumber ≤ b.sceneNumber)
        imgs).isEmpty = false := by
      cases hs : List.insertionSort (fun a b => a.sceneNumber ≤ b.sceneNumber) imgs with
      | nil =>
        have hp := List.perm_insertionSort (fun a b => a.sceneNumber ≤ b.sceneNumber) imgs
        rw [hs] at hp
        exact absurd hp.symm.eq_nil hne
      | cons a l => rfl
    obtain ⟨n, hn⟩ : ∃ n, imgs.length = n + 1 := by
      cases imgs with
      | nil => exact absurd rfl hne
      | cons a l => exact ⟨l.length, rfl⟩
    unfold compileVideoWithSceneTimings
    rw [hemp, hlen, hprep, hn, List.range_succ_eq_map]
    cases hrs : renderSegments env (0 :: List.map Nat.succ (List.range n)) 0 with
    | error r => exact (renderSegments_head_one env _ htemp).2 r hrs
    | ok c =>
      have h1 := (renderSegments_head_one env _ htemp).1 c hrs
      show 1 ≤ (if env.concatOk = false then (⟨false, false, c, true, false⟩ : CompRun)
        else if env.muxOk = false then ⟨false, true, c, true, true⟩
        else if env.outputExists = false then ⟨false, true, c, true, true⟩
        else ⟨true, true, c, true, true⟩).segmentsRun
      split
      · exact h1
      · split
        · exact h1
        · split
          · exact h1
          · exact h1

/-- Witness for C2's amended theorem at a concrete input: the marker-free
script "hello world" with a single image and the all-success
environment. -/
theorem zero_scenes_no_abort_witness :
    sceneContent "hello world" = [] ∧
    ([(⟨1, 101, 0, 10⟩ : ImageSegment)] ≠ []) ∧
    prepareFailure envAllOk ([(⟨1, 101, 0, 10⟩ : ImageSegment)]).length = none ∧
    envAllOk.tempExists 0 = true ∧
    (parseSceneTimings "hello world" 10 = .ok [] ∧
      alignedImages [] [⟨1, 101, 0, 10⟩] = [⟨1, 101, 0, 10⟩] ∧
      1 ≤ (compileVideoWithSceneTimings [⟨1, 101, 0, 10⟩] envAllOk).segmentsRun) :=
  ⟨by decide, by decide, by decide, rfl,
    zero_scenes_no_abort "hello world" 10 [⟨1, 101, 0, 10⟩] envAllOk
      (by decide) (by decide) (by decide) rfl⟩

lemma parseSceneTimings_proportional (script : String) (D : ℚ)
    (hemp : (sceneContent script).isEmpty = false)
    (hany : (sceneContent script).any (fun s => s.startTime.isSome) = false)
    (htw : 0 < totalWords (sceneContent script)) :
    parseSceneTimings script D =
      .ok (proportionalAux D (totalWords (sceneContent script)) 0 (sceneContent script)) := by
  simp [parseSceneTimings, hemp, hany, htw]

lemma parseSceneTimings_uniform (script : String) (D : ℚ)
    (hemp : (sceneContent script).isEmpty = false)
    (hany : (sceneContent script).any (fun s => s.startTime.isSome) = false)
    (htw : ¬ 0 < totalWords (sceneContent script)) :
    parseSceneTimings script D = .ok (uniformTimings (sceneContent script) D) := by
  simp [parseSceneTimings, hemp, hany, htw]

lemma parseSceneTimings_explicit (script : String) (D : ℚ)
    (hany : (sceneContent script).any (fun s => s.startTime.isSome) = true) :
    parseSceneTimings script D = explicitTimings (sceneContent script) D := by
  have hemp : (sceneContent script).isEmpty = false := by
    obtain ⟨x, hx, _⟩ := List.any_eq_true.mp hany
    cases h : sceneContent script with
    | nil => rw [h] at hx; simp at hx
    | cons a l => rfl
  simp [parseSceneTimings, hemp, hany]

lemma proportionalAux_head_start (D : ℚ) (t : Nat) :
    ∀ (l : List SceneContent) (cum : ℚ) (a : TimingInterval),
      (proportionalAux D t cum l).head? = some a → a.startTime = cum := by
  intro l cum a h
  cases l with
  | nil => simp [proportionalAux] at h
  | cons sc rest =>
    simp only [proportionalAux, List.head?_cons] at h
    cases h
    rfl

lemma proportionalAux_duration_eq (D : ℚ) (t : Nat) :
    ∀ (l : List SceneContent) (cum : ℚ) (iv : TimingInterval),
      iv ∈ proportionalAux D t cum l → iv.duration = iv.endTime - iv.startTime := by
  intro l
  induction l with
  | nil => intro cum iv h; simp [proportionalAux] at h
  | cons sc rest ih =>
    intro cum iv h
    simp only [proportionalAux, List.mem_cons] at h
    rcases h with h | h
    · subst h
      show (pyWordCount sc.content : ℚ) / (t : ℚ) * D =
        (cum + (pyWordCount sc.content : ℚ) / (t : ℚ) * D) - cum
      ring
    · exact ih _ iv h

lemma proportionalAux_chain (D : ℚ) (t : Nat) :
    ∀ (l : List SceneContent) (cum : ℚ),
      List.Chain' (fun a b => a.endTime = b.startTime) (proportionalAux D t cum l) := by
  intro l
  induction l with
  | nil => intro cum; simp [proportionalAux]
  | cons sc rest ih =>
    intro cum
    simp only [proportionalAux]
    refine List.chain'_cons'.mpr ⟨?_, ih _⟩
    intro y hy
    have hst := proportionalAux_head_start D t rest
      (cum + (pyWordCount sc.content : ℚ) / (t : ℚ) * D) y hy
    exact hst.symm

lemma proportionalAux_sum (D : ℚ) (t : Nat) :
    ∀ (l : List SceneContent) (cum : ℚ),
      ((proportionalAux D t cum l).map TimingInterval.duration).sum =
        (((l.map (fun sc => pyWordCount sc.content)).sum : ℕ) : ℚ) / (t : ℚ) * D := by
  intro l
  induction l with
  | nil => intro cum; simp [proportionalAux]
  | cons sc rest ih =>
    intro cum
    simp only [proportionalAux, List.map_cons, List.sum_cons]
    rw [ih]
    push_cast
    ring

lemma proportionalAux_bounds (D : ℚ) (hD : 0 ≤ D) (t : Nat) :
    ∀ (l : List SceneContent) (cum : ℚ), 0 ≤ cum →
      ∀ iv ∈ proportionalAux D t cum l, 0 ≤ iv.startTime ∧ iv.startTime ≤ iv.endTime := by
  intro l
  induction l with
  | nil => intro cum _ iv h; simp [proportionalAux] at h
  | cons sc rest ih =>
    intro cum hcum iv h
    have hd0 : 0 ≤ (pyWordCount sc.content : ℚ) / (t : ℚ) * D :=
      mul_nonneg (div_nonneg (Nat.cast_nonneg _) (Nat.cast_nonneg _)) hD
    simp only [proportionalAux, List.mem_cons] at h
    rcases h with h | h
    · subst h
      constructor
      · exact hcum
      · show cum ≤ cum + (pyWordCount sc.content : ℚ) / (t : ℚ) * D
        linarith
    · exact ih _ (by linarith) iv h

lemma chain_last_end :
    ∀ (l : List TimingInterval),
      List.Chain' (fun a b => a.endTime = b.startTime) l →
      (∀ iv ∈ l, iv.duration = iv.endTime - iv.startTime) →
      ∀ a b, l.head? = some a → l.getLast? = some b →
        b.endTime = a.startTime + (l.map TimingInterval.duration).sum := by
  intro l
  induction l with
  | nil => intro _ _ a b ha; simp at ha
  | cons x xs ih =>
    intro hch hd a b ha hb
    rw [List.head?_cons] at ha
    cases ha
    cases xs with
    | nil =>
      rw [List.getLast?_singleton] at hb
      cases hb
      have hx := hd x (by simp)
      simp only [List.map_cons, List.map_nil, List.sum_cons, List.sum_nil]
      linarith
    | cons y ys =>
      rw [List.getLast?_cons_cons] at hb
      have hch' := List.chain'_cons.mp hch
      have hxy := hch'.1
      have hih := ih hch'.2 (fun iv hiv => hd iv (by simp [hiv])) y b rfl hb
      have hx := hd x (by simp)
      simp only [List.map_cons, List.sum_cons] at hih ⊢
      linarith

lemma uniformAux_head_start (D per : ℚ) (n : Nat) :
    ∀ (l : List SceneContent) (a : TimingInterval),
      (uniformAux D per n 0 l).head? = some a → a.startTime = 0 := by
  intro l a h
  cases l with
  | nil => simp [uniformAux] at h
  | cons sc rest =>
    simp only [uniformAux, List.head?_cons] at h
    cases h
    show ((0 : ℕ) : ℚ) * per = 0
    simp

lemma uniformAux_duration_eq (D per : ℚ) (n : Nat) :
    ∀ (l : List SceneContent) (i : Nat) (iv : TimingInterval),
      iv ∈ uniformAux D per n i l → iv.duration = iv.endTime - iv.startTime := by
  intro l
  induction l with
  | nil => intro i iv h; simp [uniformAux] at h
  | cons sc rest ih =>
    intro i iv h
    simp only [uniformAux, List.mem_cons] at h
    rcases h with h | h
    · subst h; rfl
    · exact ih _ iv h

lemma uniformAux_chain (D per : ℚ) (n : Nat) :
    ∀ (l : List SceneContent) (i : Nat), i + l.length = n →
      List.Chain' (fun a b => a.endTime = b.startTime) (uniformAux D per n i l) := by
  intro l
  induction l with
  | nil => intro i _; simp [uniformAux]
  | cons sc rest ih =>
    intro i hlen
    simp only [uniformAux]
    refine List.chain'_cons'.mpr ⟨?_, ih (i + 1) (by simp at hlen ⊢; omega)⟩
    intro y hy
    cases rest with
    | nil => simp [uniformAux] at hy
    | cons sc2 rest2 =>
      simp only [uniformAux, List.head?_cons] at hy
      cases hy
      have hi : i < n - 1 := by simp at hlen; omega
      show (if i < n - 1 then ((i : ℚ) + 1) * per else D) = ((i + 1 : ℕ) : ℚ) * per
      rw [if_pos hi]
      push_cast
      ring

lemma uniformAux_last (D per : ℚ) (n : Nat) :
    ∀ (l : List SceneContent) (i : Nat) (b : TimingInterval), i + l.length = n →
      (uniformAux D per n i l).getLast? = some b → b.endTime = D := by
  intro l
  induction l with
  | nil => intro i b _ hb; simp [uniformAux] at hb
  | cons sc rest ih =>
    intro i b hlen hb
    cases rest with
    | nil =>
      simp only [uniformAux, List.getLast?_singleton] at hb
      cases hb
      have hni : ¬ (i < n - 1) := by simp at hlen; omega
      show (if i < n - 1 then ((i : ℚ) + 1) * per else D) = D
      rw [if_neg hni]
    | cons sc2 rest2 =>
      have hexp : uniformAux D per n i (sc :: sc2 :: rest2) =
          ⟨sc.number, (i : ℚ) * per,
            (if i < n - 1 then ((i : ℚ) + 1) * per else D),
            (if i < n - 1 then ((i : ℚ) + 1) * per else D) - (i : ℚ) * per⟩ ::
            uniformAux D per n (i + 1) (sc2 :: rest2) := rfl
      have hexp2 : uniformAux D per n (i + 1) (sc2 :: rest2) =
          ⟨sc2.number, ((i + 1 : ℕ) : ℚ) * per,
            (if i + 1 < n - 1 then (((i + 1 : ℕ) : ℚ) + 1) * per else D),
            (if i + 1 < n - 1 then (((i + 1 : ℕ) : ℚ) + 1) * per else D) -
              ((i + 1 : ℕ) : ℚ) * per⟩ ::
            uniformAux D per n (i + 2) rest2 := rfl
      rw [hexp, hexp2, List.getLast?_cons_cons] at hb
      exact ih (i + 1) b (by simp at hlen ⊢; omega) (by rw [hexp2]; exact hb)

lemma uniformAux_bounds (D per : ℚ) (n : Nat) (hper : 0 ≤ per) (hnD : (n : ℚ) * per = D) :
    ∀ (l : List SceneContent) (i : Nat), i + l.length = n →
      ∀ iv ∈ uniformAux D per n i l, 0 ≤ iv.startTime ∧ iv.startTime ≤ iv.endTime := by
  intro l
  induction l with
  | nil => intro i _ iv h; simp [uniformAux] at h
  | cons sc rest ih =>
    intro i hlen iv h
    simp only [uniformAux, List.mem_cons] at h
    rcases h with h | h
    · subst h
      constructor
      · exact mul_nonneg (Nat.cast_nonneg i) hper
      · show (i : ℚ) * per ≤ if i < n - 1 then ((i : ℚ) + 1) * per else D
        by_cases hi : i < n - 1
        · rw [if_pos hi]
          nlinarith
        · rw [if_neg hi]
          have hin : (i : ℚ) ≤ (n : ℚ) := Nat.cast_le.mpr (by simp at hlen; omega)
          nlinarith
    · exact ih (i + 1) (by simp at hlen ⊢; omega) iv h

lemma mapM_ok_of_forall {α β : Type} (g : α → Except Unit β) (f : α → β) :
    ∀ (l : List α), (∀ x ∈ l, g x = .ok (f x)) → l.mapM g = .ok (l.map f) := by
  intro l
  induction l with
  | nil => intro _; rfl
  | cons x t ih =>
    intro h
    rw [List.mapM_cons, h x (by simp), ih (fun y hy => h y (by simp [hy]))]
    rfl

lemma mapM_error_of_mem {α β : Type} (g : α → Except Unit β) :
    ∀ (l : List α) (x : α), x ∈ l → g x = .error () → l.mapM g = .error () := by
  intro l
  induction l with
  | nil => intro x hx; simp at hx
  | cons a t ih =>
    intro x hx hgx
    rw [List.mapM_cons]
    rcases List.mem_cons.mp hx with h | h
    · subst h
      rw [hgx]
      rfl
    · cases hga : g a with
      | error e =>
        cases e
        rfl
      | ok b =>
        rw [ih x h hgx]
        rfl

lemma explicitInterval_spec (scenes : List SceneContent) (D : ℚ)
    (hall : ∀ s ∈ scenes, s.startTime.isSome) :
    ∀ sc ∈ scenes, explicitInterval scenes D sc = .ok
      ⟨sc.number, sc.startTime.getD 0,
        (match sc.endTime with
         | some v => v
         | none =>
           match scenes.find? (fun t => sc.number < t.number) with
           | some ns => ns.startTime.getD D
           | none => D),
        (match sc.endTime with
         | some v => v
         | none =>
           match scenes.find? (fun t => sc.number < t.number) with
           | some ns => ns.startTime.getD D
           | none => D) - sc.startTime.getD 0⟩ := by
  intro sc hsc
  obtain ⟨s, hs⟩ := Option.isSome_iff_exists.mp (hall sc hsc)
  unfold explicitInterval explicitEnd
  rw [hs]
  cases he : sc.endTime with
  | some v => simp
  | none =>
    cases hf : scenes.find? (fun t => sc.number < t.number) with
    | some ns =>
      obtain ⟨w, hw⟩ := Option.isSome_iff_exists.mp
        (hall ns (List.mem_of_find?_eq_some hf))
      simp [hw]
    | none => simp

/-- C1: for every script whose parse yields at least one scene and every
positive audio duration, when no scene has explicit timestamps the
computed timing intervals start at 0, are contiguous (each end equals the
next start), their durations sum exactly to the audio duration, and the
final end equals the audio duration (exact in ℚ, hence within any
tolerance). -/
theorem parse_scene_timings_coverage (script : String) (D : ℚ) (hD : 0 < D)
    (hne : sceneContent script ≠ [])
    (hnoexp : ∀ sc ∈ sceneContent script, sc.startTime = none) :
    ∃ l, parseSceneTimings script D = .ok l ∧ l ≠ [] ∧
      (∀ a, l.head? = some a → a.startTime = 0) ∧
      List.Chain' (fun a b => a.endTime = b.startTime) l ∧
      (l.map TimingInterval.duration).sum = D ∧
      (∀ b, l.getLast? = some b → b.endTime = D) := by
  have hemp : (sceneContent script).isEmpty = false := by
    cases h : sceneContent script with
    | nil => exact absurd h hne
    | cons a t => rfl
  have hany : (sceneContent script).any (fun s => s.startTime.isSome) = false :=
    List.any_eq_false.mpr (fun sc hsc => by simp [hnoexp sc hsc])
  by_cases htw : 0 < totalWords (sceneContent script)
  · refine ⟨proportionalAux D (totalWords (sceneContent script)) 0 (sceneContent script),
      parseSceneTimings_proportional script D hemp hany htw, ?_, ?_, ?_, ?_, ?_⟩
    · cases h : sceneContent script with
      | nil => exact absurd h hne
      | cons sc rest => simp [proportionalAux]
    · exact fun a ha => proportionalAux_head_start D _ _ 0 a ha
    · exact proportionalAux_chain D _ _ 0
    · rw [proportionalAux_sum D _ _ 0]
      have ht : ((sceneContent script).map (fun sc => pyWordCount sc.content)).sum =
          totalWords (sceneContent script) := rfl
      rw [ht, div_self (Nat.cast_ne_zero.mpr (by omega)), one_mul]
    · intro b hb
      cases hh : (proportionalAux D (totalWords (sceneContent script)) 0
          (sceneContent script)).head? with
      | none =>
        rw [List.head?_eq_none_iff.mp hh] at hb
        simp at hb
      | some a =>
        have hsum : ((proportionalAux D (totalWords (sceneContent script)) 0
            (sceneContent script)).map TimingInterval.duration).sum = D := by
          rw [proportionalAux_sum D _ _ 0]
          have ht : ((sceneContent script).map (fun sc => pyWordCount sc.content)).sum =
              totalWords (sceneContent script) := rfl
          rw [ht, div_self (Nat.cast_ne_zero.mpr (by omega)), one_mul]
        have hlast := chain_last_end _ (proportionalAux_chain D _ _ 0)
          (fun iv hiv => proportionalAux_duration_eq D _ _ 0 iv hiv) a b hh hb
        have hstart := proportionalAux_head_start D _ _ 0 a hh
        rw [hsum, hstart] at hlast
        linarith
  · refine ⟨uniformTimings (sceneContent script) D,
      parseSceneTimings_uniform script D hemp hany htw, ?_, ?_, ?_, ?_, ?_⟩
    · cases h : sceneContent script with
      | nil => exact absurd h hne
      | cons sc rest => simp [uniformTimings, uniformAux]
    · exact fun a ha => uniformAux_head_start D _ _ _ a ha
    · exact uniformAux_chain D _ _ _ 0 (by simp)
    · cases hh : (uniformTimings (sceneContent script) D).head? with
      | none =>
        have h0 := List.head?_eq_none_iff.mp hh
        cases h : sceneContent script with
        | nil => exact absurd h hne
        | cons sc rest =>
          rw [h] at h0
          simp [uniformTimings, uniformAux] at h0
      | some a =>
        cases hl : (uniformTimings (sceneContent script) D).getLast? with
        | none =>
          rw [List.getLast?_eq_none_iff.mp hl] at hh
          simp at hh
        | some b =>
          have hlast := chain_last_end _ (uniformAux_chain D _ _ _ 0 (by simp))
            (fun iv hiv => uniformAux_duration_eq D _ _ _ 0 iv hiv) a b hh hl
          have hstart := uniformAux_head_start D _ _ _ a hh
          have hend := uniformAux_last D _ _ _ 0 b (by simp) hl
          rw [hstart, hend] at hlast
          unfold uniformTimings
          linarith
    · exact fun b hb => uniformAux_last D _ _ _ 0 b (by simp) hb

/-- Witness for C1 at a concrete input: two scenes with narration, no
timestamps, audio duration 10 s. -/
theorem parse_scene_timings_coverage_witness :
    (0 : ℚ) < 10 ∧
    sceneContent "Scene 1\nhello\nScene 2\nworld" ≠ [] ∧
    (∀ sc ∈ sceneContent "Scene 1\nhello\nScene 2\nworld", sc.startTime = none) ∧
    (∃ l, parseSceneTimings "Scene 1\nhello\nScene 2\nworld" 10 = .ok l ∧ l ≠ [] ∧
      (∀ a, l.head? = some a → a.startTime = 0) ∧
      List.Chain' (fun a b => a.endTime = b.startTime) l ∧
      (l.map TimingInterval.duration).sum = 10 ∧
      (∀ b, l.getLast? = some b → b.endTime = 10)) :=
  ⟨by decide, by decide, by decide,
    parse_scene_timings_coverage "Scene 1\nhello\nScene 2\nworld" 10
      (by decide) (by decide) (by decide)⟩

/-- C6: whenever at least one parsed scene has an explicit start time,
`_parse_scene_timings` takes the explicit-timestamp branch for the whole
scene list; and whenever every scene carries an explicit start (the only
case in which the branch returns at all, see C10), it returns exactly the
spec's pass-through policy: each interval's start is the scene's own
explicit start, and an absent explicit end is replaced by the next
scene's explicit start in scene-number order, or by the audio duration
for the last scene; gaps and overlaps are preserved. -/
theorem explicit_policy_refinement (script : String) (D : ℚ)
    (hsome : (sceneContent script).any (fun s => s.startTime.isSome) = true) :
    parseSceneTimings script D = explicitTimings (sceneContent script) D ∧
    ((∀ sc ∈ sceneContent script, sc.startTime.isSome) →
      explicitTimings (sceneContent script) D =
        .ok (specExplicitIntervals (sceneContent script) D)) := by
  refine ⟨parseSceneTimings_explicit script D hsome, ?_⟩
  intro hall
  unfold explicitTimings specExplicitIntervals
  exact mapM_ok_of_forall _ _ _ (explicitInterval_spec (sceneContent script) D hall)

/-- Witness for C6 at a concrete input: two scenes, both with explicit
ranges, audio duration 12 s. -/
theorem explicit_policy_refinement_witness :
    ((sceneContent "Scene 1 (0:00-0:05)\nhi\nScene 2 (0:05-0:10)\nyo").any
        (fun s => s.startTime.isSome) = true) ∧
    (parseSceneTimings "Scene 1 (0:00-0:05)\nhi\nScene 2 (0:05-0:10)\nyo" 12 =
        explicitTimings (sceneContent "Scene 1 (0:00-0:05)\nhi\nScene 2 (0:05-0:10)\nyo") 12 ∧
      ((∀ sc ∈ sceneContent "Scene 1 (0:00-0:05)\nhi\nScene 2 (0:05-0:10)\nyo",
          sc.startTime.isSome) →
        explicitTimings (sceneContent "Scene 1 (0:00-0:05)\nhi\nScene 2 (0:05-0:10)\nyo") 12 =
          .ok (specExplicitIntervals
            (sceneContent "Scene 1 (0:00-0:05)\nhi\nScene 2 (0:05-0:10)\nyo") 12))) :=
  ⟨by decide,
    explicit_policy_refinement "Scene 1 (0:00-0:05)\nhi\nScene 2 (0:05-0:10)\nyo" 12
      (by decide)⟩

/-- C10: if at least one parsed scene has an explicit start while some
other parsed scene has none, `_parse_scene_timings` raises (arithmetic
on the Python `None` when building that scene's interval): the explicit
branch is total only when every scene carries an explicit start. -/
theorem mixed_explicit_raises (script : String) (D : ℚ)
    (h1 : ∃ sc ∈ sceneContent script, sc.startTime.isSome)
    (h2 : ∃ sc ∈ sceneContent script, sc.startTime = none) :
    parseSceneTimings script D = .error () := by
  obtain ⟨sc2, hmem2, hnone⟩ := h2
  have hany : (sceneContent script).any (fun s => s.startTime.isSome) = true := by
    obtain ⟨sc1, hmem1, hsome1⟩ := h1
    exact List.any_eq_true.mpr ⟨sc1, hmem1, hsome1⟩
  rw [parseSceneTimings_explicit script D hany]
  unfold explicitTimings
  apply mapM_error_of_mem _ _ sc2 hmem2
  unfold explicitInterval
  rw [hnone]

/-- Witness for C10 at a concrete input: scene 1 carries an explicit
range, scene 2 none — parsing raises. -/
theorem mixed_explicit_raises_witness :
    (∃ sc ∈ sceneContent "Scene 1 (0:00-0:05)\nhi\nScene 2\nbye", sc.startTime.isSome) ∧
    (∃ sc ∈ sceneContent "Scene 1 (0:00-0:05)\nhi\nScene 2\nbye", sc.startTime = none) ∧
    parseSceneTimings "Scene 1 (0:00-0:05)\nhi\nScene 2\nbye" 7 = .error () :=
  ⟨by decide, by decide,
    mixed_explicit_raises "Scene 1 (0:00-0:05)\nhi\nScene 2\nbye" 7
      (by decide) (by decide)⟩

lemma parse_zero_word_example :
    parseSceneTimings "Scene 1\nhello world\nScene 2" 10 =
      .ok [⟨1, 0, 10, 10⟩, ⟨2, 10, 10, 0⟩] := by
  have hsc : sceneContent "Scene 1\nhello world\nScene 2" =
      [⟨1, " hello world".data, none, none⟩, ⟨2, [], none, none⟩] := by decide
  have h := parseSceneTimings_proportional "Scene 1\nhello world\nScene 2" 10
    (by rw [hsc]; rfl) (by rw [hsc]; rfl) (by rw [hsc]; decide)
  rw [h, hsc]
  have ht : totalWords [(⟨1, " hello world".data, none, none⟩ : SceneContent),
      ⟨2, [], none, none⟩] = 2 := by decide
  rw [ht]
  have hw : pyWordCount " hello world".data = 2 := by decide
  have hw0 : pyWordCount ([] : List Char) = 0 := rfl
  simp only [proportionalAux, hw, hw0]
  push_cast
  norm_num

/-- C7 counterexample: in the script below scene 2 has no narration, so
under the proportional policy its interval is degenerate — start and end
both equal 10 — violating the claimed strict inequality
`end_time > start_time`. -/
theorem zero_word_scene_counterexample :
    parseSceneTimings "Scene 1\nhello world\nScene 2" 10 =
      .ok [⟨1, 0, 10, 10⟩, ⟨2, 10, 10, 0⟩] ∧
    ¬ ((⟨2, 10, 10, 0⟩ : TimingInterval).startTime <
        (⟨2, 10, 10, 0⟩ : TimingInterval).endTime) := by
  exact ⟨parse_zero_word_example, by simp⟩

/-- C7 amended: under the proportional and uniform policies every
produced interval satisfies `0 ≤ start_time`, `start_time ≤ end_time`
(equality possible for zero-word scenes under the proportional policy)
and `duration = end_time - start_time`. -/
theorem timing_nonneg_invariant (script : String) (D : ℚ) (hD : 0 < D)
    (hnoexp : ∀ sc ∈ sceneContent script, sc.startTime = none)
    (l : List TimingInterval) (hl : parseSceneTimings script D = .ok l) :
    ∀ iv ∈ l, 0 ≤ iv.startTime ∧ iv.startTime ≤ iv.endTime ∧
      iv.duration = iv.endTime - iv.startTime := by
  have hany : (sceneContent script).any (fun s => s.startTime.isSome) = false :=
    List.any_eq_false.mpr (fun sc hsc => by simp [hnoexp sc hsc])
  cases hemp : (sceneContent script).isEmpty with
  | true =>
    have : parseSceneTimings script D = .ok [] := by
      simp [parseSceneTimings, hemp]
    rw [this] at hl
    cases hl
    intro iv hiv
    simp at hiv
  | false =>
    by_cases htw : 0 < totalWords (sceneContent script)
    · rw [parseSceneTimings_proportional script D hemp hany htw] at hl
      cases hl
      intro iv hiv
      have hb := proportionalAux_bounds D (le_of_lt hD) _ _ 0 (le_refl 0) iv hiv
      exact ⟨hb.1, hb.2, proportionalAux_duration_eq D _ _ 0 iv hiv⟩
    · rw [parseSceneTimings_uniform script D hemp hany htw] at hl
      cases hl
      intro iv hiv
      have hlen0 : (sceneContent script).length ≠ 0 := by
        cases h : sceneContent script with
        | nil => rw [h] at hemp; simp at hemp
        | cons a t => simp [h]
      have hper : 0 ≤ D / ((sceneContent script).length : ℚ) :=
        div_nonneg (le_of_lt hD) (Nat.cast_nonneg _)
      have hnD : (((sceneContent script).length : ℕ) : ℚ) *
          (D / ((sceneContent script).length : ℚ)) = D := by
        field_simp
      have hb := uniformAux_bounds D _ _ hper hnD _ 0 (by simp) iv hiv
      exact ⟨hb.1, hb.2, uniformAux_duration_eq D _ _ _ 0 iv hiv⟩

/-- Witness for C7's amended theorem at a concrete input: the script of
the counterexample, audio duration 10 s. -/
theorem timing_nonneg_invariant_witness :
    (0 : ℚ) < 10 ∧
    (∀ sc ∈ sceneContent "Scene 1\nhello world\nScene 2", sc.startTime = none) ∧
    (∀ iv ∈ [(⟨1, 0, 10, 10⟩ : TimingInterval), ⟨2, 10, 10, 0⟩],
      0 ≤ iv.startTime ∧ iv.startTime ≤ iv.endTime ∧
        iv.duration = iv.endTime - iv.startTime) :=
  ⟨by decide, by decide,
    timing_nonneg_invariant "Scene 1\nhello world\nScene 2" 10 (by decide) (by decide)
      [⟨1, 0, 10, 10⟩, ⟨2, 10, 10, 0⟩] parse_zero_word_example⟩
